import Mathlib

/-!
# Verification of the Cratecode client upload core

Shallow embedding of the repository's content-synchronization core:

* `uploadFiles` (src/upload/lesson.ts): the websocket file-sync session —
  its message handler is embedded as a step function `Sync.step` on an
  explicit `Sync.Session` state, and a whole session is a left fold over
  the incoming message trace (`Sync.runSession`).
* `mapID` / `mapIDNoNull` (src/upload/util.ts): friendly-name → ID
  resolution with a memo table reached through a shared reference.
* `readManifest` (src/upload/manifest.ts): per-node manifest validation
  and dispatch.
* the three-tier config merge, which the source delegates to lodash's
  `defaultsDeep`; the lodash 4.x algorithm is embedded on a JSON value
  type (`JVal`).
* the desired-file-set construction in `handleLesson`
  (template walk overlaid by the lesson walk, reserved names excluded,
  README image substitution).

JavaScript peculiarities that matter and are embedded faithfully:

* JS objects are modelled as insertion-ordered association lists
  (`JsObj`): assignment to an existing key updates in place, a new key is
  appended, `delete` removes, `Object.keys` / `for..in` follow that order.
  (We assume keys are not array-index-like strings — true of the file
  paths and config keys involved — for which JS preserves insertion
  order.)
* `Uint8Array.prototype.toString` is `Array.prototype.toString`, i.e. the
  comma-separated decimal rendering of the bytes ("104,105"), *not* a
  UTF-8 decoding.  `uploadFiles` compares desired text against
  `file.data?.toString()`, so this matters (`commaJoin`).
* JS truthiness (`if (x)`, `x || y`, `!x`) is modelled by `jsTruthy` on
  the JSON value type and explicitly where strings are involved.
-/

/-! ## JS objects as insertion-ordered association lists -/

/-- A JS object with string keys, in property insertion order. -/
abbrev JsObj (α : Type) := List (String × α)

namespace JsObj

/-- `obj[k]` (reading): value at key `k`, if present. -/
def get? {α : Type} : JsObj α → String → Option α
  | [], _ => none
  | p :: rest, k => if p.1 = k then some p.2 else get? rest k

/-- `obj[k] = v`: update the (first, and by construction only)
occurrence in place if present, append otherwise. -/
def set {α : Type} : JsObj α → String → α → JsObj α
  | [], k, v => [(k, v)]
  | p :: rest, k, v => if p.1 = k then (k, v) :: rest else p :: set rest k v

/-- `delete obj[k]`. -/
def del {α : Type} : JsObj α → String → JsObj α
  | [], _ => []
  | p :: rest, k => if p.1 = k then del rest k else p :: del rest k

/-- `Object.keys(obj)` / `for..in` order. -/
def keys {α : Type} (o : JsObj α) : List String :=
  o.map Prod.fst

/-- Membership of a key, as used by `items.includes(file.path)`. -/
def hasKey {α : Type} (o : JsObj α) (k : String) : Bool :=
  (o.get? k).isSome

theorem get?_set {α : Type} (o : JsObj α) (k k' : String) (v : α) :
    (o.set k v).get? k' = if k' = k then some v else o.get? k' := by
  induction o with
  | nil =>
    simp only [set, get?]
    by_cases h : k = k' <;> simp [h, eq_comm]
  | cons p rest ih =>
    simp only [set]
    by_cases hp : p.1 = k
    · simp only [hp, if_pos, get?]
      by_cases hk : k = k'
      · simp [hk]
      · have : ¬ k' = k := fun h => hk h.symm
        simp [get?, hk, this, hp]
    · simp only [hp, if_neg, not_false_iff, get?, ih]
      by_cases hpk' : p.1 = k'
      · have : ¬ k' = k := fun h => hp (h ▸ hpk')
        simp [hpk', this]
      · simp [hpk']

theorem get?_del {α : Type} (o : JsObj α) (k k' : String) :
    (o.del k).get? k' = if k' = k then none else o.get? k' := by
  induction o with
  | nil => simp [del, get?]
  | cons p rest ih =>
    simp only [del]
    by_cases hp : p.1 = k
    · rw [if_pos hp, ih]
      by_cases hk : k' = k
      · simp [hk]
      · have : ¬ p.1 = k' := fun h => hk ((hp ▸ h : k = k').symm ▸ rfl)
        simp [hk, get?, this]
    · rw [if_neg hp]
      simp only [get?, ih]
      by_cases hpk' : p.1 = k'
      · have : ¬ k' = k := fun h => hp (h ▸ hpk')
        simp [hpk', this]
      · simp [hpk']

end JsObj

/-! ## Bytes, UTF-8, and `Uint8Array.prototype.toString` -/

/-- UTF-8 encoding of one scalar value, as performed by `TextEncoder`
(`new TextEncoder().encode(...)` in `uploadFiles`).  Lean's `Char` ranges
over Unicode scalar values, exactly `TextEncoder`'s domain. -/
def utf8EncodeChar (c : Char) : List Nat :=
  let n := c.toNat
  if n < 0x80 then [n]
  else if n < 0x800 then
    [0xC0 ||| (n >>> 6), 0x80 ||| (n &&& 0x3F)]
  else if n < 0x10000 then
    [0xE0 ||| (n >>> 12), 0x80 ||| ((n >>> 6) &&& 0x3F), 0x80 ||| (n &&& 0x3F)]
  else
    [0xF0 ||| (n >>> 18), 0x80 ||| ((n >>> 12) &&& 0x3F),
     0x80 ||| ((n >>> 6) &&& 0x3F), 0x80 ||| (n &&& 0x3F)]

/-- `new TextEncoder().encode(s)` — the UTF-8 bytes of `s`. -/
def utf8Bytes (s : String) : List Nat :=
  s.data.flatMap utf8EncodeChar

/-- `Uint8Array.prototype.toString` is inherited from
`Array.prototype.toString`, i.e. `join(",")` of the decimal byte values:
`new Uint8Array([104,105]).toString() === "104,105"`.  This is what
`file.data?.toString()` evaluates to in `uploadFiles` (the protobuf
decoder returns a plain `Uint8Array` subarray of the received frame). -/
def commaJoin (bs : List Nat) : String :=
  String.intercalate "," (bs.map toString)

/-! ## The file-sync session (`uploadFiles`, src/upload/lesson.ts)

`uploadFiles(token, files)` snapshots `filesBackup = { ...files }`, opens
the websocket, and returns a promise driven by the `message` handler plus
a 10-second timeout guard.  We embed the handler as a step function on an
explicit session state and a session as a left fold over the trace of
decoded incoming messages.  Wall-clock time is not modelled; scheduled
actions (the 1-second-delayed retry and socket close) are recorded in the
state together with their delay in milliseconds. -/

namespace Sync

/-- The desired file set: container-relative path → text content. -/
abbrev FileMap := JsObj String

/-- One entry of the decoded `Files` listing
(`proto_proxy_out/files.proto`): `path` plus optional raw `data` bytes. -/
structure RFile where
  path : String
  data : Option (List Nat)
  deriving Repr, DecidableEq

/-- Decoded incoming message (`proto_proxy_out/main.proto`).  `filesMsg`
carries the optional nested payload (`message.value`), already decoded to
its entry list when present.  `other` stands for any frame the `switch`
ignores (unknown types, non-`ArrayBuffer` data). -/
inductive OutMsg where
  | initialized
  | notInitialized
  | filesMsg (payload : Option (List RFile))
  | other
  deriving Repr, DecidableEq

/-- Message sent on the socket (`proto_proxy_in`): `GetFiles`,
`DeleteFile{path}`, or `SetFile{path, data}`. -/
inductive InMsg where
  | getFiles
  | deleteFile (path : String)
  | setFile (path : String) (data : List Nat)
  deriving Repr, DecidableEq

/-- The state of one `uploadFiles` session. -/
structure Session where
  /-- the mutable working set (the `files` parameter object). -/
  files : FileMap
  /-- `filesBackup = { ...files }`, snapshotted at session start. -/
  filesBackup : FileMap
  /-- the `finished` flag. -/
  finished : Bool
  /-- `resolve()` calls made directly by the `Files` handler. -/
  resolvedDirect : Bool
  /-- all `ws.send(...)` payloads, in order. -/
  sent : List InMsg
  /-- scheduled session restarts: `(delay ms, files argument)` for each
  `setTimeout(() => uploadFiles(token, filesBackup).then(resolve), 1000)`. -/
  retries : List (Nat × FileMap)
  /-- number of immediate `ws.close()` calls (`NotInitialized` handler). -/
  closeCalls : Nat
  /-- scheduled socket closes: delay ms of each `setTimeout(() => ws.close(), 1000)`. -/
  scheduledCloses : List Nat
  deriving Repr, DecidableEq

/-- Session state at the top of `uploadFiles`, before any message. -/
def initSession (files : FileMap) : Session :=
  { files := files
    filesBackup := files
    finished := false
    resolvedDirect := false
    sent := []
    retries := []
    closeCalls := 0
    scheduledCloses := [] }

/-- The `Files` handler's first loop: for every listed file whose path is
not among `Object.keys(files)` (taken *before* any pruning), send
`DeleteFile{path}`. -/
def deletionsFor (files : FileMap) (listed : List RFile) : List InMsg :=
  (listed.filter (fun f => !((files.keys).contains f.path))).map
    (fun f => InMsg.deleteFile f.path)

/-- The `Files` handler's second loop: delete from the working set every
path whose current value satisfies
`files[file.path] === file.data?.toString()`.  With `data` present this
compares the desired text against the comma-joined decimal bytes
(`Uint8Array.prototype.toString`); with `data` absent it compares against
`undefined`, which never equals a present string value. -/
def pruneFiles (files : FileMap) (listed : List RFile) : FileMap :=
  listed.foldl
    (fun fs f =>
      match f.data with
      | some bs => if fs.get? f.path = some (commaJoin bs) then fs.del f.path else fs
      | none => fs)
    files

/-- The `Files` handler's third loop: `SetFile{path, utf8(text)}` for
every entry left in the working set, in `for..in` order. -/
def setFilesFor (files : FileMap) : List InMsg :=
  files.map (fun p => InMsg.setFile p.1 (utf8Bytes p.2))

/-- One firing of the `ws.on("message", ...)` handler. -/
def step (s : Session) (m : OutMsg) : Session :=
  match m with
  | .initialized =>
      -- request the remote listing
      { s with sent := s.sent ++ [InMsg.getFiles] }
  | .notInitialized =>
      -- warn, set `finished`, close the socket, and schedule a full
      -- restart with the pristine `filesBackup` after 1000 ms
      { s with
        finished := true
        closeCalls := s.closeCalls + 1
        retries := s.retries ++ [(1000, s.filesBackup)] }
  | .filesMsg none =>
      -- `if (!message.value) break;`
      s
  | .filesMsg (some listed) =>
      let dels := deletionsFor s.files listed
      let pruned := pruneFiles s.files listed
      let sets := setFilesFor pruned
      { s with
        files := pruned
        sent := s.sent ++ dels ++ sets
        scheduledCloses := s.scheduledCloses ++ [1000]
        finished := true
        resolvedDirect := true }
  | .other => s

/-- A whole session: the handler folded over the incoming trace. -/
def runSession (files : FileMap) (msgs : List OutMsg) : Session :=
  msgs.foldl step (initSession files)

/-- Number of `NotInitialized` signals in a trace. -/
def countNotInit (msgs : List OutMsg) : Nat :=
  (msgs.filter (fun m => m = OutMsg.notInitialized)).length

/-- Whether a trace contains a `Files` message with a present payload
(the only message that marks the session finished with a direct resolve). -/
def hasFilesPayload (msgs : List OutMsg) : Bool :=
  msgs.any (fun m => match m with | .filesMsg (some _) => true | _ => false)

end Sync

namespace Sync

/-- `filesBackup` is never mutated by the handler: every branch of the
`switch` leaves the session-start snapshot untouched. -/
theorem step_filesBackup (s : Session) (m : OutMsg) :
    (step s m).filesBackup = s.filesBackup := by
  cases m with
  | initialized => rfl
  | notInitialized => rfl
  | filesMsg payload => cases payload <;> rfl
  | other => rfl

/-- Retries accumulated by a fold: one per `NotInitialized` signal, each
scheduled 1000 ms out and carrying the session-start snapshot. -/
theorem foldl_retries (msgs : List OutMsg) (s : Session) :
    (msgs.foldl step s).retries
      = s.retries ++ List.replicate (countNotInit msgs) (1000, s.filesBackup) := by
  induction msgs generalizing s with
  | nil => simp [countNotInit]
  | cons m rest ih =>
    rw [List.foldl_cons, ih, step_filesBackup]
    cases m with
    | initialized => simp [step, countNotInit]
    | notInitialized =>
      simp [step, countNotInit, List.filter, List.replicate, List.append_assoc]
    | filesMsg payload =>
      cases payload <;> simp [step, countNotInit]
    | other => simp [step, countNotInit]

/-- Immediate `ws.close()` calls accumulated by a fold: exactly one per
`NotInitialized` signal. -/
theorem foldl_closeCalls (msgs : List OutMsg) (s : Session) :
    (msgs.foldl step s).closeCalls = s.closeCalls + countNotInit msgs := by
  induction msgs generalizing s with
  | nil => simp [countNotInit]
  | cons m rest ih =>
    rw [List.foldl_cons, ih]
    cases m with
    | initialized => simp [step, countNotInit]
    | notInitialized => simp [step, countNotInit, List.filter]; omega
    | filesMsg payload => cases payload <;> simp [step, countNotInit]
    | other => simp [step, countNotInit]

/-- The `finished` flag after a fold: set exactly by `NotInitialized` or
by a `Files` message with a payload. -/
theorem foldl_finished (msgs : List OutMsg) (s : Session) :
    (msgs.foldl step s).finished
      = (s.finished || hasFilesPayload msgs || decide (0 < countNotInit msgs)) := by
  induction msgs generalizing s with
  | nil => simp [hasFilesPayload, countNotInit]
  | cons m rest ih =>
    rw [List.foldl_cons, ih]
    cases m with
    | initialized => simp [step, hasFilesPayload, countNotInit]
    | notInitialized =>
      simp [step, hasFilesPayload, countNotInit, List.filter]
    | filesMsg payload =>
      cases payload <;> simp [step, hasFilesPayload, countNotInit]
    | other => simp [step, hasFilesPayload, countNotInit]

/-- The `Files` handler is the only direct `resolve()` caller. -/
theorem foldl_resolvedDirect (msgs : List OutMsg) (s : Session) :
    (msgs.foldl step s).resolvedDirect = (s.resolvedDirect || hasFilesPayload msgs) := by
  induction msgs generalizing s with
  | nil => simp [hasFilesPayload]
  | cons m rest ih =>
    rw [List.foldl_cons, ih]
    cases m with
    | initialized => simp [step, hasFilesPayload]
    | notInitialized => simp [step, hasFilesPayload]
    | filesMsg payload => cases payload <;> simp [step, hasFilesPayload]
    | other => simp [step, hasFilesPayload]

end Sync

namespace Sync

/-- A completed run of `uploadFiles`, including its retry chain: the
root session's incoming trace, plus one child run per `NotInitialized`
signal (each `setTimeout(() => uploadFiles(token, filesBackup).then(resolve), 1000)`
spawns a fresh session wired to resolve the parent's promise). -/
inductive RunTree where
  | node (files : FileMap) (msgs : List OutMsg) (kids : List RunTree)

/-- The desired-set argument of a run's root session. -/
def RunTree.rootFiles : RunTree → FileMap
  | .node files _ _ => files

/-- Well-formed runs: every `NotInitialized` signal has its spawned
child, and each child is called with the parent's `filesBackup`, i.e.
the parent's own (session-start) desired set. -/
def RunTree.wf : RunTree → Bool
  | .node files msgs kids =>
    kids.length == countNotInit msgs
      && kids.attach.all (fun k =>
            k.1.rootFiles == (runSession files msgs).filesBackup && k.1.wf)
  decreasing_by
    rename_i msgs kids
    calc sizeOf k.1 < sizeOf kids := List.sizeOf_lt_of_mem k.2
      _ < sizeOf (RunTree.node files msgs kids) := by simp

/-- Whether the run's promise gets resolved: directly by a handled
`Files` message, by the 10-second timeout guard (which fires whenever
`finished` is still false), or by a resolved retry child
(`.then(resolve)`). -/
def RunTree.resolves : RunTree → Bool
  | .node files msgs kids =>
    let s := runSession files msgs
    s.resolvedDirect || !s.finished || kids.attach.any (fun k => k.1.resolves)
  decreasing_by
    rename_i msgs kids
    calc sizeOf k.1 < sizeOf kids := List.sizeOf_lt_of_mem k.2
      _ < sizeOf (RunTree.node files msgs kids) := by simp

end Sync

namespace Sync

/-- `runSession` facts specialised to a fresh session. -/
theorem runSession_resolvedDirect (files : FileMap) (msgs : List OutMsg) :
    (runSession files msgs).resolvedDirect = hasFilesPayload msgs := by
  rw [runSession, foldl_resolvedDirect]
  rfl

theorem runSession_finished (files : FileMap) (msgs : List OutMsg) :
    (runSession files msgs).finished
      = (hasFilesPayload msgs || decide (0 < countNotInit msgs)) := by
  rw [runSession, foldl_finished]
  rfl

/-- Liveness of the retry chain: every well-formed run's promise is
resolved — by the `Files` handler, by the timeout guard, or through a
child's resolution. -/
theorem RunTree.resolves_of_wf : ∀ t : RunTree, t.wf = true → t.resolves = true := by
  intro t
  induction t using RunTree.resolves.induct with
  | _ files msgs kids ih =>
    intro hwf
    rw [RunTree.wf] at hwf
    rw [RunTree.resolves]
    simp only [Bool.and_eq_true, beq_iff_eq, List.all_eq_true] at hwf
    obtain ⟨hlen, hkids⟩ := hwf
    simp only [runSession_resolvedDirect, runSession_finished]
    by_cases hf : hasFilesPayload msgs = true
    · simp [hf]
    · simp only [Bool.or_eq_true, Bool.not_eq_true'] at *
      by_cases hn : countNotInit msgs = 0
      · simp [hf, hn]
      · have hk0 : kids ≠ [] := by
          intro h
          rw [h] at hlen
          simp at hlen
          omega
        obtain ⟨k, ks, rfl⟩ := List.exists_cons_of_ne_nil hk0
        have hmem : k ∈ k :: ks := List.mem_cons_self k ks
        have hw := hkids ⟨k, hmem⟩ (List.mem_attach _ _)
        rw [List.any_eq_true]
        exact Or.inr ⟨⟨k, hmem⟩, List.mem_attach _ _, ih ⟨k, hmem⟩ hw.2⟩

end Sync

namespace JsObj

theorem get?_eq_none_iff {α : Type} (o : JsObj α) (k : String) :
    o.get? k = none ↔ k ∉ o.keys := by
  induction o with
  | nil => simp [get?, keys]
  | cons p rest ih =>
    simp only [get?, keys, List.map_cons, List.mem_cons] at *
    by_cases hp : p.1 = k
    · simp [hp]
    · rw [if_neg hp, ih]
      constructor
      · intro h hor
        cases hor with
        | inl h1 => exact hp h1.symm
        | inr h2 => exact h h2
      · intro h h2
        exact h (Or.inr h2)

theorem mem_keys_of_mem {α : Type} {o : JsObj α} {p : String × α}
    (h : p ∈ o) : p.1 ∈ o.keys := List.mem_map_of_mem Prod.fst h

end JsObj

namespace Sync

/-- C4: every `NotInitialized` signal received during a session schedules
exactly one restart of the whole session, 1000 ms out, closing the socket
first; and every such restart is passed the pristine session-start
desired set (`filesBackup`), not the working set mutated by any pruning
that a `Files` round performed earlier in the same session. -/
theorem claim_C4_retry_pristine (files : FileMap) (msgs : List OutMsg) :
    (runSession files msgs).retries
        = List.replicate (countNotInit msgs) (1000, files)
      ∧ (runSession files msgs).closeCalls = countNotInit msgs := by
  constructor
  · rw [runSession, foldl_retries]; rfl
  · rw [runSession, foldl_closeCalls]; simp [initSession]

/-- C5: in a `Files` round the handler first emits one `DeleteFile` per
listed path absent from the (pre-pruning) working set, then prunes, and
only then emits `SetFile`s — so every `DeleteFile` precedes every
`SetFile`, deletions are decided against the un-pruned key set, and
`SetFile`s cover exactly paths that survive pruning. -/
theorem claim_C5_round_ordering (s : Session) (listed : List RFile) :
    ∃ dels sets,
      (step s (OutMsg.filesMsg (some listed))).sent = s.sent ++ (dels ++ sets)
      ∧ (∀ m ∈ dels, ∃ p, m = InMsg.deleteFile p)
      ∧ (∀ m ∈ sets, ∃ p d, m = InMsg.setFile p d)
      ∧ (∀ f ∈ listed,
          (InMsg.deleteFile f.path ∈ dels ↔ s.files.get? f.path = none))
      ∧ (∀ p d, InMsg.setFile p d ∈ sets → (pruneFiles s.files listed).get? p ≠ none) := by
  refine ⟨deletionsFor s.files listed, setFilesFor (pruneFiles s.files listed),
    by simp [step], ?_, ?_, ?_, ?_⟩
  · intro m hm
    simp only [deletionsFor, List.mem_map, List.mem_filter] at hm
    obtain ⟨f, _, rfl⟩ := hm
    exact ⟨f.path, rfl⟩
  · intro m hm
    simp only [setFilesFor, List.mem_map] at hm
    obtain ⟨p, _, rfl⟩ := hm
    exact ⟨p.1, utf8Bytes p.2, rfl⟩
  · intro f hf
    simp only [deletionsFor, List.mem_map, List.mem_filter]
    constructor
    · rintro ⟨g, ⟨hg, hgk⟩, heq⟩
      have hpaths : g.path = f.path := by
        injection heq
      rw [JsObj.get?_eq_none_iff, ← hpaths]
      intro hmem
      have hc : (JsObj.keys s.files).contains g.path = true :=
        List.contains_iff_exists_mem_beq.mpr ⟨g.path, hmem, by simp⟩
      simp [hc] at hgk
      exact hgk hmem
    · intro hnone
      refine ⟨f, ⟨hf, ?_⟩, rfl⟩
      rw [JsObj.get?_eq_none_iff] at hnone
      rw [Bool.not_eq_eq_eq_not, Bool.not_true, Bool.eq_false_iff]
      intro hc
      obtain ⟨a, ha, hbeq⟩ := List.contains_iff_exists_mem_beq.mp hc
      exact hnone ((eq_of_beq hbeq) ▸ ha)
  · intro p d hm
    simp only [setFilesFor, List.mem_map] at hm
    obtain ⟨q, hq, heq⟩ := hm
    have hqp : q.1 = p := by injection heq
    rw [Ne, JsObj.get?_eq_none_iff]
    intro hnot
    exact hnot (hqp ▸ JsObj.mem_keys_of_mem hq)

/-- C10: a `Files` message whose nested payload is absent is ignored
entirely — the handler state (messages sent, working set, `finished`) is
unchanged — and a session receiving no payload-carrying `Files` message
and no `NotInitialized` stays unfinished, so only the 10-second timeout
guard can resolve it. -/
theorem claim_C10_empty_files_ignored :
    (∀ s : Session, step s (OutMsg.filesMsg none) = s)
    ∧ (∀ (files : FileMap) (msgs : List OutMsg),
        hasFilesPayload msgs = false → countNotInit msgs = 0 →
          (runSession files msgs).finished = false
          ∧ (runSession files msgs).resolvedDirect = false) := by
  refine ⟨fun s => rfl, fun files msgs hpay hcnt => ?_⟩
  rw [runSession_finished, runSession_resolvedDirect, hpay, hcnt]
  simp

/-- C10 witness: a concrete session that only receives a payload-free
`Files` message is left untouched and unfinished. -/
theorem claim_C10_empty_files_ignored_witness :
    step (initSession [("a.txt", "hello")]) (OutMsg.filesMsg none)
        = initSession [("a.txt", "hello")]
    ∧ (runSession [("a.txt", "hello")] [OutMsg.filesMsg none]).finished = false :=
  ⟨claim_C10_empty_files_ignored.1 (initSession [("a.txt", "hello")]),
   (claim_C10_empty_files_ignored.2 [("a.txt", "hello")] [OutMsg.filesMsg none]
      (by decide) (by decide)).1⟩

end Sync

namespace Sync

/-- The 10-second guard: `sleep(10_000).then(() => { if (finished) return;
console.warn(...); resolve(); })`.  It fires — logging the timeout warning
and resolving the promise — exactly when the session is not finished. -/
def timeoutGuardFires (files : FileMap) (msgs : List OutMsg) : Bool :=
  !(runSession files msgs).finished

/-- C6: every well-formed run (each `NotInitialized` spawning its retry
child on the parent's pristine set) gets its promise resolved — the
executor never rejects — and a session in which no payload-carrying
`Files` message and no `NotInitialized` arrive is resolved by the
10-second guard, which logs the timeout warning. -/
theorem claim_C6_timeout_resolves :
    (∀ t : RunTree, t.wf = true → t.resolves = true)
    ∧ (∀ (files : FileMap) (msgs : List OutMsg),
        hasFilesPayload msgs = false → countNotInit msgs = 0 →
          timeoutGuardFires files msgs = true) := by
  refine ⟨RunTree.resolves_of_wf, fun files msgs hp hc => ?_⟩
  rw [timeoutGuardFires, runSession_finished]
  simp [hp, hc]

/-- C6 witness: a run that only ever sees `Initialized` resolves (via the
guard), and the guard fires on it. -/
theorem claim_C6_timeout_resolves_witness :
    (RunTree.node [("a.txt", "1")] [OutMsg.initialized] []).resolves = true
    ∧ timeoutGuardFires [("a.txt", "1")] [OutMsg.initialized] = true :=
  ⟨claim_C6_timeout_resolves.1 _ (by simp [RunTree.wf, countNotInit]),
   claim_C6_timeout_resolves.2 _ _ (by decide) (by decide)⟩

/-- The remote listing of the specification's convergence example:
`{x: "old", y: "same"}`. -/
def exampleRemote : List RFile :=
  [⟨"x", some (utf8Bytes "old")⟩, ⟨"y", some (utf8Bytes "same")⟩]

/-- The desired set of the specification's convergence example:
`{y: "same", z: "new"}`. -/
def exampleDesired : FileMap :=
  [("y", "same"), ("z", "new")]

/-- C1 (divergence): on remote `{x:"old", y:"same"}` and desired
`{y:"same", z:"new"}` the session emits `DeleteFile(x)` and
`SetFile(z)` — but *also* `SetFile(y)`, because the skip-unchanged
comparison `files[file.path] === file.data?.toString()` pits the desired
text "same" against `Uint8Array.prototype.toString` of its bytes,
which is the comma-joined decimal string "115,97,109,101"; nothing
non-empty is ever pruned. -/
theorem claim_C1_skip_unchanged_divergence :
    runSession exampleDesired [OutMsg.filesMsg (some exampleRemote)]
      = { files := [("y", "same"), ("z", "new")]
          filesBackup := [("y", "same"), ("z", "new")]
          finished := true
          resolvedDirect := true
          sent := [InMsg.deleteFile "x",
                   InMsg.setFile "y" (utf8Bytes "same"),
                   InMsg.setFile "z" (utf8Bytes "new")]
          retries := []
          closeCalls := 0
          scheduledCloses := [1000] }
    ∧ commaJoin (utf8Bytes "same") = "115,97,109,101" := by
  constructor <;> rfl

end Sync

/-! ## Run state and name→ID resolution (src/upload/index.ts, src/upload/util.ts)

The `State` record holds, among top-level fields, `idsMap` — a JS object
used as the name→ID memo.  `readManifest` forks the state with a shallow
copy `{ ...state }`: the copy gets its *own* top-level slots but the same
`idsMap` object reference.  We model the reference explicitly: `UState`
holds an index into a heap of memo tables, and the shallow copy
re-builds the record field by field, reference included. -/

namespace Resolve

/-- The name→ID memo table (`state.idsMap`). -/
abbrev IdsMap := JsObj String

/-- A heap of memo tables; `idsMapRef` indexes into it.  The real program
allocates exactly one table (in `upload`), but the model keeps the
reference explicit because the claims are about what forking shares. -/
abbrev Heap := List IdsMap

/-- The forkable part of the application's `State`: the memo reference
and the template/config slots that `readManifest` may reassign per
branch.  (`itemCount` and `key` are omitted: no claim concerns them.) -/
structure UState where
  idsMapRef : Nat
  templates : Option String
  configTemplate : Option String
  deriving Repr, DecidableEq

/-- `{ ...state }` — the shallow copy taken at every manifest-recursion
boundary: each top-level field is copied by value, so the `idsMap`
*reference* is copied, not the table it points to. -/
def forkState (s : UState) : UState :=
  { idsMapRef := s.idsMapRef
    templates := s.templates
    configTemplate := s.configTemplate }

def heapGet (h : Heap) (r : Nat) : IdsMap := h.getD r []

def heapSet (h : Heap) (r : Nat) (m : IdsMap) : Heap := h.set r m

/-- Outcome of `GET /internal/api/id/{name}`: a found id, a 404, or any
other axios failure. -/
inductive Lookup where
  | found (id : String)
  | notFound
  | failure (msg : String)
  deriving Repr, DecidableEq

/-- Result of a `mapID` call: the value, the heap after any memo write,
and how many network requests were made. -/
structure MapResult where
  value : Option String
  heap : Heap
  calls : Nat
  deriving Repr, DecidableEq

/-- `id.startsWith(":")` — written on the character list so that it
evaluates inside the kernel. -/
def startsWithColon (s : String) : Bool :=
  match s.data with
  | c :: _ => c = ':'
  | [] => false

/-- `id.substring(1)` — the id with the ":" marker stripped. -/
def dropFirst (s : String) : String :=
  String.mk (s.data.drop 1)

/-- `state.idsMap[id] || ...`: the memo participates through JS
truthiness, so an empty-string entry does not count as a hit. -/
def cacheHit (m : IdsMap) (id : String) : Option String :=
  match m.get? id with
  | some v => if v = "" then none else some v
  | none => none

/-- `mapID(id, state)` (src/upload/util.ts).  `oracle` stands for the
network: the response to `GET /internal/api/id/{id}`.

* `null` → `null`, no request;
* a ":"-prefixed literal → the remainder, no request;
* otherwise the memo is consulted (`state.idsMap[id] || ...`); on a miss
  one request is made: 404 becomes a `null` value (not memoized, not an
  error), any other failure propagates (`throw e`), and a found id is
  written to the memo (`state.idsMap[id] = res.data.id`) before being
  returned. -/
def mapID (oracle : String → Lookup) (id : Option String) (s : UState) (h : Heap) :
    Except String MapResult :=
  match id with
  | none => .ok ⟨none, h, 0⟩
  | some i =>
    if startsWithColon i then .ok ⟨some (dropFirst i), h, 0⟩
    else
      match cacheHit (heapGet h s.idsMapRef) i with
      | some v => .ok ⟨some v, h, 0⟩
      | none =>
        match oracle i with
        | .found v =>
            .ok ⟨some v, heapSet h s.idsMapRef ((heapGet h s.idsMapRef).set i v), 1⟩
        | .notFound => .ok ⟨none, h, 1⟩
        | .failure msg => .error msg

/-- `mapIDNoNull(id, state)`: `mapID` with a `null` result turned into a
thrown `Could not find an ID for ...` error. -/
def mapIDNoNull (oracle : String → Lookup) (id : Option String) (s : UState) (h : Heap) :
    Except String MapResult :=
  match mapID oracle id s h with
  | .ok r =>
    match r.value with
    | none => .error ("Could not find an ID for " ++ (id.getD "null") ++ ".")
    | some _ => .ok r
  | .error e => .error e

end Resolve

namespace Resolve

/-- C7: identity resolution.  `mapID(null)` is `null` with zero requests;
a ":"-prefixed id yields the remainder with zero requests; on a memo miss
a 404 yields `null` as an ordinary (non-error, non-memoized) result, any
other failure propagates, and a found id is memoized before being
returned. -/
theorem claim_C7_mapID_contract :
    (∀ (oracle : String → Lookup) (s : UState) (h : Heap),
        mapID oracle none s h = .ok ⟨none, h, 0⟩)
    ∧ (∀ (oracle : String → Lookup) (s : UState) (h : Heap) (i : String),
        startsWithColon i = true →
          mapID oracle (some i) s h = .ok ⟨some (dropFirst i), h, 0⟩)
    ∧ (∀ (oracle : String → Lookup) (s : UState) (h : Heap) (i : String),
        startsWithColon i = false →
        cacheHit (heapGet h s.idsMapRef) i = none →
        oracle i = .notFound →
          mapID oracle (some i) s h = .ok ⟨none, h, 1⟩)
    ∧ (∀ (oracle : String → Lookup) (s : UState) (h : Heap) (i msg : String),
        startsWithColon i = false →
        cacheHit (heapGet h s.idsMapRef) i = none →
        oracle i = .failure msg →
          mapID oracle (some i) s h = .error msg)
    ∧ (∀ (oracle : String → Lookup) (s : UState) (h : Heap) (i v : String),
        startsWithColon i = false →
        cacheHit (heapGet h s.idsMapRef) i = none →
        oracle i = .found v →
        s.idsMapRef < h.length →
          ∃ h2,
            mapID oracle (some i) s h = .ok ⟨some v, h2, 1⟩
            ∧ (heapGet h2 s.idsMapRef).get? i = some v) := by
  refine ⟨fun oracle s h => rfl, ?_, ?_, ?_, ?_⟩
  · intro oracle s h i hpre
    simp [mapID, hpre]
  · intro oracle s h i hpre hmiss hor
    simp [mapID, hpre, hmiss, hor]
  · intro oracle s h i msg hpre hmiss hor
    simp [mapID, hpre, hmiss, hor]
  · intro oracle s h i v hpre hmiss hor hlt
    refine ⟨heapSet h s.idsMapRef ((heapGet h s.idsMapRef).set i v), ?_, ?_⟩
    · simp [mapID, hpre, hmiss, hor]
    · rw [heapGet, heapSet, List.getD_eq_getElem?_getD, List.getElem?_set_self hlt]
      simp [JsObj.get?_set]

/-- C7 witness: the contract applied at concrete inputs — a ":"-literal,
a 404, and a found-and-memoized lookup. -/
theorem claim_C7_mapID_contract_witness :
    mapID (fun _ => Lookup.notFound) (some ":abc") ⟨0, none, none⟩ [[]]
        = .ok ⟨some "abc", [[]], 0⟩
    ∧ mapID (fun _ => Lookup.notFound) (some "a") ⟨0, none, none⟩ [[]]
        = .ok ⟨none, [[]], 1⟩
    ∧ ∃ h2,
        mapID (fun _ => Lookup.found "X") (some "a") ⟨0, none, none⟩ [[]]
          = .ok ⟨some "X", h2, 1⟩
        ∧ (heapGet h2 (0 : Nat)).get? "a" = some "X" :=
  ⟨claim_C7_mapID_contract.2.1 _ ⟨0, none, none⟩ [[]] ":abc" (by decide),
   claim_C7_mapID_contract.2.2.1 _ ⟨0, none, none⟩ [[]] "a" (by decide) (by decide) rfl,
   claim_C7_mapID_contract.2.2.2.2 _ ⟨0, none, none⟩ [[]] "a" "X"
     (by decide) (by decide) rfl (by decide)⟩

end Resolve

namespace Resolve

/-- C3 (counterexample): the ID memo is *not* isolated between sibling
forks.  Both siblings fork the same parent state; sibling A resolves
"lesson-a" over the network (one call, answer "ID1") and writes the memo
through the shared reference; sibling B — a different fork whose network
would answer "ID2" — then resolves "lesson-a" from A's memo entry, with
zero network calls and A's answer. -/
theorem claim_C3_memo_not_isolated :
    mapID (fun _ => Lookup.found "ID1") (some "lesson-a")
        (forkState ⟨0, none, none⟩) [[]]
      = .ok ⟨some "ID1", [[("lesson-a", "ID1")]], 1⟩
    ∧ mapID (fun _ => Lookup.found "ID2") (some "lesson-a")
        (forkState ⟨0, none, none⟩) [[("lesson-a", "ID1")]]
      = .ok ⟨some "ID1", [[("lesson-a", "ID1")]], 0⟩ :=
  ⟨rfl, rfl⟩

/-- C3 (amended): `{ ...state }` copies the `State` record field by
field, so a fork keeps the *same* `idsMap` reference as its parent — the
memo is shared run-wide, not per-fork.  Consequently, once any fork has
resolved a name to a non-empty id, every other fork of the same parent
resolves that name from the memo with zero network calls (and the same
answer), regardless of what its own lookup would have returned. -/
theorem claim_C3_memo_shared_across_forks :
    (∀ s : UState, (forkState s).idsMapRef = s.idsMapRef)
    ∧ (∀ (oracle oracle2 : String → Lookup) (s : UState) (h : Heap)
         (i v : String) (r : MapResult),
        startsWithColon i = false →
        s.idsMapRef < h.length →
        mapID oracle (some i) (forkState s) h = .ok r →
        r.value = some v →
        v ≠ "" →
          mapID oracle2 (some i) (forkState s) r.heap = .ok ⟨some v, r.heap, 0⟩) := by
  refine ⟨fun s => rfl, ?_⟩
  intro oracle oracle2 s h i v r hpre hlt hrun hval hne
  have href : (forkState s).idsMapRef = s.idsMapRef := rfl
  rw [mapID] at hrun ⊢
  rw [hpre] at hrun ⊢
  simp only [Bool.false_eq_true, if_false] at hrun ⊢
  rcases hcache : cacheHit (heapGet h (forkState s).idsMapRef) i with _ | w
  · rw [hcache] at hrun
    rcases horc : oracle i with w | _ | msg <;> rw [horc] at hrun
    · -- network hit: the memo write goes through the shared reference
      injection hrun with h1
      subst h1
      simp only at hval
      injection hval with hval
      subst hval
      have hmemo : cacheHit (heapGet (heapSet h s.idsMapRef
          ((heapGet h s.idsMapRef).set i w)) s.idsMapRef) i
          = some w := by
        rw [heapGet, heapSet, List.getD_eq_getElem?_getD, List.getElem?_set_self hlt]
        simp [cacheHit, JsObj.get?_set, hne]
      rw [href] at hcache ⊢
      simp only [href]
      rw [hmemo]
    · injection hrun with h1
      subst h1
      simp at hval
    · exact absurd hrun (by simp)
  · -- memo hit already: the heap is unchanged and the hit repeats
    rw [hcache] at hrun
    injection hrun with h1
    subst h1
    simp only at hval
    injection hval with hval
    subst hval
    rw [hcache]

/-- C3 witness: the amended theorem applied to the counterexample's
concrete data. -/
theorem claim_C3_memo_shared_across_forks_witness :
    mapID (fun _ => Lookup.found "ID2") (some "lesson-a")
        (forkState ⟨0, none, none⟩) [[("lesson-a", "ID1")]]
      = .ok ⟨some "ID1", [[("lesson-a", "ID1")]], 0⟩ :=
  claim_C3_memo_shared_across_forks.2 (fun _ => Lookup.found "ID1")
    (fun _ => Lookup.found "ID2") ⟨0, none, none⟩ [[]] "lesson-a" "ID1"
    ⟨some "ID1", [[("lesson-a", "ID1")]], 1⟩
    (by decide) (by decide) rfl rfl (by decide)

end Resolve

/-! ## JSON values and JS truthiness -/

/-- A parsed JSON value (`JSON.parse` output).  Numbers are modelled as
integers — no claim computes on numerics. -/
inductive JVal where
  | jnull
  | jbool (b : Bool)
  | jnum (n : Int)
  | jstr (s : String)
  | jarr (xs : List JVal)
  | jobj (fields : List (String × JVal))

namespace JVal

/-- JS truthiness of a value: `null`, `false`, `0`, and `""` are falsy;
every object and array (including `[]` and `{}`) is truthy. -/
def truthy : JVal → Bool
  | .jnull => false
  | .jbool b => b
  | .jnum n => !(n = 0)
  | .jstr s => !(s = "")
  | .jarr _ => true
  | .jobj _ => true

/-- Truthiness of `data["field"]`: an absent property reads as
`undefined`, which is falsy. -/
def truthy? : Option JVal → Bool
  | none => false
  | some v => v.truthy

/-- Reading a property of a JSON object (`data["k"]`); `none` both for an
absent key and for a non-object. -/
def getField : JVal → String → Option JVal
  | .jobj fields, k => JsObj.get? fields k
  | _, _ => none

end JVal

/-! ## `readManifest` node processing (src/upload/manifest.ts)

One call of `readManifest` parses the file, validates/installs
`templates`, `configTemplate` and `upload` (in that order), then
dispatches on `type`.  The recursion into `upload` children and the
delegation to `handleUnit`/`handleLesson` are side effects of the driver;
the node function below returns what the driver would do: the updated
branch state, the child manifest paths (in order), and the typed action,
or the first validation error thrown.  The source's one inline function
is split here into one definition per section, composed by
`readManifestNode` in source order. -/

namespace Manifest

/-- `Path.join(a, b)` on the relative names the manifests use. -/
def pathJoin (a b : String) : String := a ++ "/" ++ b

/-- The typed handling requested by a manifest node. -/
inductive TypedAction where
  /-- `handleUnit({...state}, id, name, lessons)`; `lessons` is `none`
  when the manifest said `lessons: null` (which `typeof null === "object"`
  lets through). -/
  | unitAction (id name : String) (lessons : Option (JsObj JVal))
  /-- `handleLesson({...state}, id, name, unit, spec, extends, classNo, dir)` -/
  | lessonAction (id name : String) (unit spec extendsTemplate : Option String)
      (lessonClass : Nat)

/-- What processing one manifest node does, error cases aside. -/
structure NodeResult where
  /-- the branch state's `templates` slot after the `templates` section. -/
  templates : Option String
  /-- the branch state's `configTemplate` slot after its section. -/
  configTemplate : Option JVal
  /-- child manifest paths recursed into (with a forked state), in order. -/
  children : List String
  /-- the typed handling, `none` for a fan-out-only node. -/
  typed : Option TypedAction

/-- `class` → number: `{tutorial: 1, activity: 2, project: 3, challenge: 4}`;
the JS guard is `lessonClass in classMap || lessonClass === null`, and the
dispatch is `classMap[lessonClass] || 0`. -/
def classMapLookup : JVal → Option Nat
  | .jstr "tutorial" => some 1
  | .jstr "activity" => some 2
  | .jstr "project" => some 3
  | .jstr "challenge" => some 4
  | .jnull => some 0
  | _ => none

/-- `upload` items must all be strings. -/
def stringItems : List JVal → Option (List String)
  | [] => some []
  | .jstr s :: rest => (stringItems rest).map (fun l => s :: l)
  | _ => none

/-- `typeof data !== "object" || Array.isArray(data)` → throw.  Note
`JSON.parse` can also yield `null`, which passes that check and then
crashes with a TypeError on the first property read — returned as an
error here as well. -/
def asManifestObject : JVal → Except String (JsObj JVal)
  | .jobj fields => .ok fields
  | .jarr _ => .error "Manifest must be an object!"
  | .jnull => .error "TypeError: Cannot read properties of null"
  | _ => .error "Manifest must be an object!"

/-- `if (data["templates"]) { ... state.templates = Path.join(newBase, ...) }`
— processed only when truthy, must then be a string. -/
def readTemplates (tmplIn : Option String) (newBase : String)
    (fields : JsObj JVal) : Except String (Option String) :=
  if JVal.truthy? (JsObj.get? fields "templates") then
    match JsObj.get? fields "templates" with
    | some (.jstr s) => .ok (some (pathJoin newBase s))
    | _ => .error "Templates must be a string!"
  else .ok tmplIn

/-- `if (data["configTemplate"]) ...` — the guard
`typeof x !== "object" && !Array.isArray(x)` accepts arrays as well as
objects (its error message is the source's, copy-paste and all). -/
def readConfigTemplate (cfgIn : Option JVal)
    (fields : JsObj JVal) : Except String (Option JVal) :=
  if JVal.truthy? (JsObj.get? fields "configTemplate") then
    match JsObj.get? fields "configTemplate" with
    | some (v@(.jobj _)) => .ok (some v)
    | some (v@(.jarr _)) => .ok (some v)
    | _ => .error "Templates must be a string!"
  else .ok cfgIn

/-- `if (data["upload"]) ...` — the guard accidentally re-tests
`typeof data`, so it amounts to `Array.isArray(data["upload"])`; each
item must be a string and contributes the child path
`Path.join(newBase, item, "manifest.json")`. -/
def readUpload (newBase : String) (fields : JsObj JVal) :
    Except String (List String) :=
  match JsObj.get? fields "upload" with
  | some (.jarr items) =>
    match stringItems items with
    | some names =>
        .ok (names.map (fun n => pathJoin (pathJoin newBase n) "manifest.json"))
    | none => .error "Upload must be a string array!"
  | _ => .error "Upload must be an array!"

/-- the `case "unit"` validations. -/
def readUnitAction (fields : JsObj JVal) : Except String TypedAction := do
  let id ←
    match JsObj.get? fields "id" with
    | some (.jstr s) => Except.ok s
    | _ => Except.error "id must be a string!"
  let name ←
    match JsObj.get? fields "name" with
    | some (.jstr s) => Except.ok s
    | _ => Except.error "name must be a string!"
  let lessons ←
    match JsObj.get? fields "lessons" with
    | some (.jobj l) => Except.ok (some l)
    | some .jnull => Except.ok none
    | _ => Except.error "lessons must be an object!"
  Except.ok (.unitAction id name lessons)

/-- the `case "lesson"` validations (`tmpl` is the branch `templates`
slot *after* this node's own `templates` section ran). -/
def readLessonAction (tmpl : Option String) (fields : JsObj JVal) :
    Except String TypedAction := do
  let id ←
    match JsObj.get? fields "id" with
    | some (.jstr s) => Except.ok s
    | _ => Except.error "id must be a string!"
  let name ←
    match JsObj.get? fields "name" with
    | some (.jstr s) => Except.ok s
    | _ => Except.error "name must be a string!"
  let unit ←
    match JsObj.get? fields "unit" with
    | some (.jstr s) => Except.ok (some s)
    | some .jnull => Except.ok none
    | _ => Except.error "unit must be a string or null!"
  let spec ←
    match JsObj.get? fields "spec" with
    | some (.jstr s) => Except.ok (some s)
    | some .jnull => Except.ok none
    | _ => Except.error "spec must be a string or null!"
  let extendsTemplate ←
    -- `extends != null` is a loose check: both null and absent pass
    match JsObj.get? fields "extends" with
    | some (.jstr s) => Except.ok (some s)
    | some .jnull => Except.ok none
    | none => Except.ok none
    | _ => Except.error "extends must be a string or null!"
  if extendsTemplate.isSome && tmpl.isNone then
    Except.error "extends must be used with templates!"
  else
    let classNo ←
      match JsObj.get? fields "class" with
      | none =>
          -- absent reads as undefined: neither `in classMap` nor `=== null`
          Except.error "class must be null or one of [tutorial, activity, project, challenge]!"
      | some v =>
        match classMapLookup v with
        | some n => Except.ok n
        | none => Except.error "class must be null or one of [tutorial, activity, project, challenge]!"
    Except.ok (.lessonAction id name unit spec extendsTemplate classNo)

/-- `if (!data["type"]) return;` followed by the `switch`: any falsy
`type` means fan-out-only; the `switch` default throws. -/
def readTyped (tmpl : Option String) (cfg : Option JVal)
    (children : List String) (fields : JsObj JVal) :
    Except String NodeResult :=
  if !(JVal.truthy? (JsObj.get? fields "type")) then
    .ok { templates := tmpl, configTemplate := cfg, children := children, typed := none }
  else
    match JsObj.get? fields "type" with
    | some (.jstr "unit") =>
        (readUnitAction fields).map
          (fun a => { templates := tmpl, configTemplate := cfg,
                      children := children, typed := some a })
    | some (.jstr "lesson") =>
        (readLessonAction tmpl fields).map
          (fun a => { templates := tmpl, configTemplate := cfg,
                      children := children, typed := some a })
    | _ => .error "Type must be either undefined, \x22unit\x22, or \x22lesson\x22."

/-- `if (data["upload"]) { ...recurse per entry... }` — the section is
skipped entirely (no children) when `upload` is falsy. -/
def readChildren (newBase : String) (fields : JsObj JVal) :
    Except String (List String) :=
  if JVal.truthy? (JsObj.get? fields "upload") then
    readUpload newBase fields
  else .ok []

/-- One `readManifest` call on parsed `data`, with `newBase =
Path.dirname(manifest)` and the branch state's incoming `templates` and
`configTemplate` slots, section by section in source order. -/
def readManifestNode (tmplIn : Option String) (cfgIn : Option JVal)
    (newBase : String) (data : JVal) : Except String NodeResult := do
  let fields ← asManifestObject data
  let tmpl ← readTemplates tmplIn newBase fields
  let cfg ← readConfigTemplate cfgIn fields
  let children ← readChildren newBase fields
  readTyped tmpl cfg children fields

end Manifest


/-- Inversion for `Except.bind` hitting `ok` (the monad bind of the
`do`-chains above). -/
theorem except_bind_ok {ε α β : Type} {x : Except ε α} {f : α → Except ε β} {r : β}
    (h : x >>= f = .ok r) : ∃ a, x = .ok a ∧ f a = .ok r := by
  cases x with
  | ok a => exact ⟨a, rfl, h⟩
  | error e => exact Except.noConfusion h

theorem except_isOk_exists {ε α : Type} {x : Except ε α}
    (h : x.isOk = true) : ∃ a, x = .ok a := by
  cases x with
  | ok a => exact ⟨a, rfl⟩
  | error e => simp [Except.isOk, Except.toBool] at h

namespace Manifest

/-- Whether a section succeeds is independent of the incoming slot and
base path — only the manifest's own fields decide it. -/
theorem readTemplates_isOk (a c : Option String) (b d : String) (fields : JsObj JVal) :
    (readTemplates a b fields).isOk = (readTemplates c d fields).isOk := by
  rw [readTemplates, readTemplates]
  split
  · split <;> rfl
  · rfl

theorem readConfigTemplate_isOk (a c : Option JVal) (fields : JsObj JVal) :
    (readConfigTemplate a fields).isOk = (readConfigTemplate c fields).isOk := by
  rw [readConfigTemplate, readConfigTemplate]
  split
  · split <;> rfl
  · rfl

theorem readChildren_isOk (b d : String) (fields : JsObj JVal) :
    (readChildren b fields).isOk = (readChildren d fields).isOk := by
  rw [readChildren, readChildren, readUpload, readUpload]
  split
  · split
    · split <;> rfl
    · rfl
  · rfl

/-- Validity of the three pre-`type` sections (`templates`,
`configTemplate`, `upload`) of a manifest object — i.e. whether
processing reaches the `type` dispatch without throwing. -/
def preFieldsOk (data : JVal) : Bool :=
  match data with
  | .jobj fields =>
    (readTemplates none "" fields).isOk
    && (readConfigTemplate none fields).isOk
    && (readChildren "" fields).isOk
  | _ => false

/-- C9 (counterexample): a manifest whose `type` is explicitly `null` — a
value other than "unit" and "lesson" — does *not* raise: `!data["type"]`
treats every falsy `type` as absent, so the node returns as a
fan-out-only node. -/
theorem claim_C9_falsy_type_accepted :
    readManifestNode none none "base" (JVal.jobj [("type", JVal.jnull)])
      = Except.ok { templates := none, configTemplate := none,
                    children := [], typed := none } := by
  rfl

/-- C9 (amended): a successful `readManifest` node with falsy `type`
(absent, `null`, `""`, `0`, `false`) is a fan-out-only node; a successful
node with truthy `type` has `type` `"unit"` or `"lesson"` — equivalently,
every *truthy* `type` other than those two raises; and whenever the
pre-`type` sections validate and `type` is falsy, the node does succeed,
children and all (the driver recurses into them before the dispatch). -/
theorem claim_C9_type_dispatch :
    (∀ (tmplIn : Option String) (cfgIn : Option JVal) (base : String)
       (data : JVal) (res : NodeResult),
       readManifestNode tmplIn cfgIn base data = .ok res →
         (JVal.truthy? (data.getField "type") = false → res.typed = none)
         ∧ (JVal.truthy? (data.getField "type") = true →
             data.getField "type" = some (.jstr "unit")
             ∨ data.getField "type" = some (.jstr "lesson")))
    ∧ (∀ (tmplIn : Option String) (cfgIn : Option JVal) (base : String)
       (data : JVal),
       preFieldsOk data = true →
       JVal.truthy? (data.getField "type") = false →
         ∃ res, readManifestNode tmplIn cfgIn base data = .ok res
           ∧ res.typed = none) := by
  constructor
  · intro tmplIn cfgIn base data res hrun
    rw [readManifestNode] at hrun
    obtain ⟨fields, hfields, hrun⟩ := except_bind_ok hrun
    have hdata : data.getField "type" = JsObj.get? fields "type" := by
      cases data <;> simp [asManifestObject] at hfields
      subst hfields
      rfl
    obtain ⟨tmpl, htmpl, hrun⟩ := except_bind_ok hrun
    obtain ⟨cfg, hcfg, hrun⟩ := except_bind_ok hrun
    obtain ⟨children, hchildren, hrun⟩ := except_bind_ok hrun
    rw [readTyped] at hrun
    rw [hdata]
    by_cases htype : JVal.truthy? (JsObj.get? fields "type") = true
    · rw [if_neg (by simp [htype])] at hrun
      refine ⟨fun hf => absurd htype (by simp [hf]), fun _ => ?_⟩
      split at hrun
      · left; assumption
      · right; assumption
      · exact Except.noConfusion hrun
    · rw [Bool.not_eq_true] at htype
      rw [if_pos (by simp [htype])] at hrun
      injection hrun with hrun
      subst hrun
      exact ⟨fun _ => rfl, fun ht => absurd ht (by simp [htype])⟩
  · intro tmplIn cfgIn base data hpre htype
    match data, hpre with
    | .jobj fields, hpre =>
      rw [preFieldsOk] at hpre
      simp only [Bool.and_eq_true] at hpre
      obtain ⟨⟨h1, h2⟩, h3⟩ := hpre
      simp only [JVal.getField] at htype
      rw [readTemplates_isOk none tmplIn "" base] at h1
      rw [readConfigTemplate_isOk none cfgIn] at h2
      rw [readChildren_isOk "" base] at h3
      obtain ⟨tmpl, he1⟩ := except_isOk_exists h1
      obtain ⟨cfg, he2⟩ := except_isOk_exists h2
      obtain ⟨children, he3⟩ := except_isOk_exists h3
      refine ⟨{ templates := tmpl, configTemplate := cfg,
                children := children, typed := none }, ?_, rfl⟩
      rw [readManifestNode]
      simp only [bind, Except.bind, asManifestObject, he1, he2, he3]
      simp only [readTyped]
      rw [if_pos (by simp [htype])]

/-- C9 witness: the dispatch theorem applied to a concrete fan-out node
with one `upload` child and no `type`. -/
theorem claim_C9_type_dispatch_witness :
    ∃ res, readManifestNode none none "root"
        (JVal.jobj [("upload", JVal.jarr [JVal.jstr "kid"])]) = .ok res
      ∧ res.typed = none :=
  claim_C9_type_dispatch.2 none none "root"
    (JVal.jobj [("upload", JVal.jarr [JVal.jstr "kid"])]) (by rfl) (by rfl)

end Manifest

/-! ## The config merge (`handleLesson`, src/upload/lesson.ts)

`handleLesson` combines the three config tiers with lodash's
`defaultsDeep(lessonConfig, templateConfig, state.configTemplate)`.
The lodash 4.x algorithm (`mergeWith` + `customDefaultsMerge`) is
embedded below on `JVal`:

* a key already defined in the destination keeps its value unless *both*
  sides are objects/arrays, in which case they are merged recursively;
* a key missing from the destination is (deep-cloned and) copied in;
* arrays are treated as objects keyed by index, so they are merged
  *element-wise*: destination elements win, missing indices are filled
  from the source;
* an object destination with an array source gains the array's indices
  as string keys; an array destination with an object source only gains
  non-index properties, which `JSON.stringify` (applied to the result by
  `handleLesson`) drops again — so the destination value is kept;
* `null` sources are skipped (`if (source)` in lodash's assigner), and a
  `null` destination is replaced by a fresh `{}` (`Object(null)`). -/

namespace Config

/-- index/value pairs of an array, as the string-keyed properties lodash
iterates (`arrFields 0 [a, b] = [("0", a), ("1", b)]`). -/
def arrFields (i : Nat) : List JVal → List (String × JVal)
  | [] => []
  | v :: rest => (toString i, v) :: arrFields (i + 1) rest

mutual

/-- `customDefaultsMerge(objValue, srcValue)` for a key present on both
sides: recurse when both are containers, otherwise keep the destination. -/
def mergeVal : JVal → JVal → JVal
  | .jobj dfs, .jobj sfs => .jobj (mergeFieldsGo dfs sfs)
  | .jobj dfs, .jarr ss => .jobj (mergeObjArrGo dfs 0 ss)
  | .jarr ds, .jarr ss => .jarr (mergeArrGo ds ss)
  | .jarr ds, .jobj _ => .jarr ds
  | d, _ => d

/-- fold the source object's fields (in order) into the destination
object: merge into an existing key, append a missing one. -/
def mergeFieldsGo (dfs : List (String × JVal)) :
    List (String × JVal) → List (String × JVal)
  | [] => dfs
  | (k, sv) :: rest =>
    let dfs2 :=
      match JsObj.get? dfs k with
      | some dv => JsObj.set dfs k (mergeVal dv sv)
      | none => dfs ++ [(k, sv)]
    mergeFieldsGo dfs2 rest

/-- array-into-array: element-wise, destination elements win, missing
indices filled from the source. -/
def mergeArrGo : List JVal → List JVal → List JVal
  | ds, [] => ds
  | [], sv :: ss => sv :: mergeArrGo [] ss
  | dv :: ds, sv :: ss => mergeVal dv sv :: mergeArrGo ds ss

/-- array-into-object: the source array's indices become string keys of
the destination object. -/
def mergeObjArrGo (dfs : List (String × JVal)) (i : Nat) :
    List JVal → List (String × JVal)
  | [] => dfs
  | sv :: ss =>
    let k := toString i
    let dfs2 :=
      match JsObj.get? dfs k with
      | some dv => JsObj.set dfs k (mergeVal dv sv)
      | none => dfs ++ [(k, sv)]
    mergeObjArrGo dfs2 (i + 1) ss

end

/-- `defaultsDeep(lesson, template, global)` as called by `handleLesson`:
`null` arguments are skipped by lodash's assigner, and a `null`
destination becomes `Object(null)`, i.e. `{}`. -/
def defaultsDeep3 (lesson template global : Option JVal) : JVal :=
  let start := match lesson with
    | some v => v
    | none => .jobj []
  let afterTemplate := match template with
    | some t => mergeVal start t
    | none => start
  match global with
  | some g => mergeVal afterTemplate g
  | none => afterTemplate

/-- `handleLesson`'s config step: `lessonConfig || templateConfig ||
state.configTemplate ? defaultsDeep(...) : null` (each tier is `null`
when its `config.json` / inherited template is missing). -/
def configData (lesson template global : Option JVal) : Option JVal :=
  if lesson.isSome || template.isSome || global.isSome then
    some (defaultsDeep3 lesson template global)
  else
    none

end Config

namespace Config

/-- C2 (divergence): with lesson config `{"a": [10]}` and template config
`{"a": [1, 2]}` the merged config is `{"a": [10, 2]}` — lodash's
`defaultsDeep` merges the arrays *element-wise* (index 1 is filled from
the template) — not `{"a": [10]}` as wholesale override (the behaviour
both the claim and the source's own comment describe). -/
theorem claim_C2_array_merged_elementwise :
    configData (some (JVal.jobj [("a", JVal.jarr [JVal.jnum 10])]))
        (some (JVal.jobj [("a", JVal.jarr [JVal.jnum 1, JVal.jnum 2])]))
        none
      = some (JVal.jobj [("a", JVal.jarr [JVal.jnum 10, JVal.jnum 2])])
    ∧ configData (some (JVal.jobj [("a", JVal.jarr [JVal.jnum 10])]))
        (some (JVal.jobj [("a", JVal.jarr [JVal.jnum 1, JVal.jnum 2])]))
        none
      ≠ some (JVal.jobj [("a", JVal.jarr [JVal.jnum 10])]) := by
  constructor
  · simp [configData, defaultsDeep3, mergeVal, mergeFieldsGo,
          mergeArrGo, mergeObjArrGo, JsObj.get?, JsObj.set]
  · simp [configData, defaultsDeep3, mergeVal, mergeFieldsGo,
          mergeArrGo, mergeObjArrGo, JsObj.get?, JsObj.set]

end Config

/-! ## Desired-file-set construction (`handleLesson`, src/upload/lesson.ts)

`handleLesson` walks the template directory (if any), then the lesson
directory, in that order (`walkEntries.unshift(...)` puts the template
walk first).  For each file entry, relative path not among the reserved
names, it reads the content and stores it under the relative path —
later entries overwrite earlier ones at equal relative paths.  A file
whose absolute path ends in "/README.md" gets the `$$IMAGE name [alt]$$`
substitution pass against the resolved image-asset table. -/

namespace FileSet

/-- One result row of `walkdir` plus the read content: `[path, stats,
Path.relative(dir, path)]` with the file's UTF-8 text. -/
structure WalkEntry where
  absPath : String
  isFile : Bool
  relPath : String
  content : String

/-- One row of `state.images`: id, format, and optional pixel sizes. -/
structure ImageRecord where
  id : String
  format : String
  width : Option Nat
  height : Option Nat

/-- `state.images` — image filename → record, or `null` if no images
folder was ever loaded. -/
abbrev ImagesTable := JsObj ImageRecord

/-- the reserved names skipped by the walk loop. -/
def reservedNames : List String := ["manifest.json", "video.cv", "config.json"]

/-- JS regex `\s` (the class used by `\$\$IMAGE\s+([^$\s]+)...`). -/
def jsWhitespace (c : Char) : Bool :=
  c = ' ' || c = '\t' || c = '\n' || c = '\x0b' || c = '\x0c' || c = '\r'
    || c = ' ' || c = ' '
    || (' ' ≤ c && c ≤ ' ')
    || c = ' ' || c = ' ' || c = ' ' || c = ' '
    || c = '　' || c = '﻿'

/-- a character of `[^$\s]` — the name/alt token class. -/
def imageTokenChar (c : Char) : Bool :=
  !(c = '$') && !(jsWhitespace c)

/-- One attempt of `/\$\$IMAGE\s+([^$\s]+)(?:\s+([^$\s]+))?\$\$/` at the
head of `cs`: the literal marker, one-or-more whitespace, the greedy
name token, an optional whitespace-plus-alt token, and the closing
`$$`.  (The greedy scan is exact here: the token class excludes both
`$` and whitespace, so the regex engine's backtracking can never turn a
failed attempt at a position into a success.)  Returns the name, the
optional alt, and the characters after the match. -/
def matchImage : List Char → Option (String × Option String × List Char)
  | '$' :: '$' :: 'I' :: 'M' :: 'A' :: 'G' :: 'E' :: r1 =>
    let ws1 := r1.takeWhile jsWhitespace
    let r2 := r1.dropWhile jsWhitespace
    if ws1.isEmpty then none
    else
      let tok1 := r2.takeWhile imageTokenChar
      let r3 := r2.dropWhile imageTokenChar
      if tok1.isEmpty then none
      else
        let ws2 := r3.takeWhile jsWhitespace
        let r4 := r3.dropWhile jsWhitespace
        let tok2 := r4.takeWhile imageTokenChar
        let r5 := r4.dropWhile imageTokenChar
        if !ws2.isEmpty && !tok2.isEmpty then
          match r5 with
          | '$' :: '$' :: rest => some (String.mk tok1, some (String.mk tok2), rest)
          | _ => none
        else
          match r3 with
          | '$' :: '$' :: rest => some (String.mk tok1, none, rest)
          | _ => none
  | _ => none

theorem matchImage_rest_length {cs rest : List Char} {name : String}
    {alt : Option String} (h : matchImage cs = some (name, alt, rest)) :
    rest.length < cs.length := by
  rw [matchImage.eq_def] at h
  split at h
  case _ r1 =>
    have h2 : (r1.dropWhile jsWhitespace).length ≤ r1.length :=
      (List.dropWhile_sublist jsWhitespace).length_le
    have h3 : ((r1.dropWhile jsWhitespace).dropWhile imageTokenChar).length
        ≤ (r1.dropWhile jsWhitespace).length :=
      (List.dropWhile_sublist imageTokenChar).length_le
    have h4 : (((r1.dropWhile jsWhitespace).dropWhile imageTokenChar).dropWhile
        jsWhitespace).length
        ≤ ((r1.dropWhile jsWhitespace).dropWhile imageTokenChar).length :=
      (List.dropWhile_sublist jsWhitespace).length_le
    have h5 : ((((r1.dropWhile jsWhitespace).dropWhile imageTokenChar).dropWhile
        jsWhitespace).dropWhile imageTokenChar).length
        ≤ (((r1.dropWhile jsWhitespace).dropWhile imageTokenChar).dropWhile
        jsWhitespace).length :=
      (List.dropWhile_sublist imageTokenChar).length_le
    simp only at h
    split at h
    · exact Option.noConfusion h
    · split at h
      · exact Option.noConfusion h
      · split at h
        · split at h
          · rename_i rest2 heq
            injection h with h
            have hr : rest2 = rest := congrArg (fun t => t.2.2) h
            subst hr
            have h6 := congrArg List.length heq
            simp only [List.length_cons] at h6 ⊢
            omega
          · exact Option.noConfusion h
        · split at h
          · rename_i rest2 heq
            injection h with h
            have hr : rest2 = rest := congrArg (fun t => t.2.2) h
            subst hr
            have h6 := congrArg List.length heq
            simp only [List.length_cons] at h6 ⊢
            omega
          · exact Option.noConfusion h
  case _ => exact Option.noConfusion h

end FileSet

namespace FileSet

/-- The replacement for a matched `$$IMAGE name [alt]$$`: fails when no
images folder was loaded, or the name is absent from the table;
otherwise a markdown image tag against the CDN url, the size annotation
`\x7bWxH\x7d` appended to the alt only when both dimensions are known
truthy (a 0 width/height is falsy in JS). -/
def renderImage (images : Option ImagesTable) (name : String)
    (alt : Option String) : Except String String :=
  match images with
  | none => .error "An images folder must be set before images can be used."
  | some table =>
    match JsObj.get? table name with
    | none => .error ("Could not find image \x22" ++ name ++ "\x22.")
    | some record =>
      let sizeMetadata :=
        match record.width, record.height with
        | some w, some h =>
          if w ≠ 0 && h ≠ 0 then
            "\x7b" ++ toString w ++ "x" ++ toString h ++ "\x7d"
          else ""
        | _, _ => ""
      let url := "https://img.cdn.cratecode.com/userfiles/img/"
        ++ record.id ++ "." ++ record.format
      let parts := (match alt with | some a => [a] | none => [])
        ++ (if sizeMetadata = "" then [] else [sizeMetadata])
      .ok ("![" ++ String.intercalate " " parts ++ "](" ++ url ++ ")")

/-- `content.replace(/\$\$IMAGE .../g, replacer)`: scan left to right,
substituting every match (the replacer may throw) and moving one
character on mismatch. -/
def replaceImages (images : Option ImagesTable) :
    List Char → Except String (List Char)
  | [] => .ok []
  | c :: cs =>
    match hm : matchImage (c :: cs) with
    | some (name, alt, rest) => do
        let rep ← renderImage images name alt
        let tail ← replaceImages images rest
        .ok (rep.data ++ tail)
    | none => do
        let tail ← replaceImages images cs
        .ok (c :: tail)
  termination_by cs => cs.length
  decreasing_by
    · exact matchImage_rest_length hm
    · simp

/-- Reading one walk entry: `continue` on directories and reserved
names; otherwise the content, README files passed through the image
substitution (`entry[0].endsWith("/README.md")`). -/
def processEntry (images : Option ImagesTable) (e : WalkEntry) :
    Except String (Option (String × String)) :=
  if !e.isFile then .ok none
  else if reservedNames.contains e.relPath then .ok none
  else if "/README.md".data.isSuffixOf e.absPath.data then
    (replaceImages images e.content.data).map (fun cs => some (e.relPath, String.mk cs))
  else .ok (some (e.relPath, e.content))

end FileSet

namespace FileSet

/-- The walk loop from an arbitrary accumulator (the source starts from
`const files = {}` and mutates it entry by entry). -/
def buildFilesFrom (images : Option ImagesTable) (fs0 : JsObj String) :
    List WalkEntry → Except String (JsObj String)
  | [] => .ok fs0
  | e :: rest => do
    let w ← processEntry images e
    match w with
    | none => buildFilesFrom images fs0 rest
    | some (k, v) => buildFilesFrom images (JsObj.set fs0 k v) rest

/-- The files record computed from a list of walk entries. -/
def buildFiles (images : Option ImagesTable) (entries : List WalkEntry) :
    Except String (JsObj String) :=
  buildFilesFrom images [] entries

/-- `handleLesson`'s walk: the lesson directory's entries, with the
template directory's entries unshifted in front when a template is in
effect. -/
def desiredFileSet (images : Option ImagesTable)
    (templateEntries : Option (List WalkEntry))
    (lessonEntries : List WalkEntry) : Except String (JsObj String) :=
  match templateEntries with
  | some t => buildFiles images (t ++ lessonEntries)
  | none => buildFiles images lessonEntries

/-- The successful writes of an entry list: `(relPath, content)` of each
kept file, in walk order. -/
def writesOf (images : Option ImagesTable) :
    List WalkEntry → Except String (List (String × String))
  | [] => .ok []
  | e :: rest => do
    let w ← processEntry images e
    let ws ← writesOf images rest
    match w with
    | none => .ok ws
    | some x => .ok (x :: ws)

/-- The last write wins (`files[entry[2]] = ...` overwrites). -/
def lastWrite (p : String) : List (String × String) → Option String
  | [] => none
  | w :: rest =>
    match lastWrite p rest with
    | some v => some v
    | none => if w.1 = p then some w.2 else none

theorem buildFilesFrom_eq (images : Option ImagesTable)
    (entries : List WalkEntry) (fs0 : JsObj String) :
    buildFilesFrom images fs0 entries
      = (writesOf images entries).map
          (fun ws => ws.foldl (fun fs w => JsObj.set fs w.1 w.2) fs0) := by
  induction entries generalizing fs0 with
  | nil => rfl
  | cons e rest ih =>
    rw [buildFilesFrom, writesOf]
    cases hw : processEntry images e with
    | error msg => rfl
    | ok w =>
      simp only [bind, Except.bind]
      cases w with
      | none =>
        rw [ih]
        cases hws : writesOf images rest <;> rfl
      | some x =>
        obtain ⟨k, v⟩ := x
        show buildFilesFrom images (JsObj.set fs0 k v) rest = _
        rw [ih]
        cases hws : writesOf images rest <;> rfl

theorem foldl_set_get? (p : String) (ws : List (String × String)) (fs0 : JsObj String) :
    (ws.foldl (fun fs w => JsObj.set fs w.1 w.2) fs0).get? p
      = match lastWrite p ws with
        | some v => some v
        | none => fs0.get? p := by
  induction ws generalizing fs0 with
  | nil => rfl
  | cons w rest ih =>
    rw [List.foldl_cons, ih, lastWrite]
    cases lastWrite p rest with
    | some v => rfl
    | none =>
      simp only [JsObj.get?_set]
      by_cases hp : p = w.1
      · simp [hp]
      · have hq : ¬ w.1 = p := fun h => hp h.symm
        rw [if_neg hq, if_neg hp]

theorem writesOf_append (images : Option ImagesTable)
    (xs ys : List WalkEntry) :
    writesOf images (xs ++ ys)
      = (do
          let wx ← writesOf images xs
          let wy ← writesOf images ys
          pure (wx ++ wy)) := by
  induction xs with
  | nil =>
    cases hys : writesOf images ys <;> simp [writesOf, bind, Except.bind, hys, pure, Except.pure]
  | cons e rest ih =>
    rw [List.cons_append, writesOf, writesOf, ih]
    cases hw : processEntry images e with
    | error msg => rfl
    | ok w =>
      simp only [bind, Except.bind]
      cases hxs : writesOf images rest with
      | error msg => cases w <;> rfl
      | ok wx => cases w <;> cases hys : writesOf images ys <;> rfl

theorem lastWrite_append (p : String) (xs ys : List (String × String)) :
    lastWrite p (xs ++ ys)
      = match lastWrite p ys with
        | some v => some v
        | none => lastWrite p xs := by
  induction xs with
  | nil =>
    rw [List.nil_append]
    cases lastWrite p ys <;> rfl
  | cons w rest ih =>
    rw [List.cons_append, lastWrite, ih, lastWrite]
    cases lastWrite p ys <;> cases lastWrite p rest <;> rfl

/-- A kept write is keyed by the entry's relative path, which is not a
reserved name (the loop `continue`s on those). -/
theorem processEntry_ok_some {images : Option ImagesTable} {e : WalkEntry}
    {x : String × String} (h : processEntry images e = .ok (some x)) :
    x.1 = e.relPath ∧ reservedNames.contains e.relPath = false := by
  rw [processEntry] at h
  split at h
  · exact absurd (Except.ok.inj h) (by simp)
  · rename_i hres
    rw [Bool.not_eq_true] at hres
    split at h
    · exact absurd (Except.ok.inj h) (by simp)
    · rename_i hres2
      rw [Bool.not_eq_true] at hres2
      refine ⟨?_, hres2⟩
      split at h
      · cases hrep : replaceImages images e.content.data with
        | error msg => rw [hrep] at h; exact Except.noConfusion h
        | ok cs =>
          rw [hrep] at h
          simp only [Except.map] at h
          have := Except.ok.inj h
          have := Option.some.inj this
          rw [← this]
      · have := Except.ok.inj h
        have := Option.some.inj this
        rw [← this]

/-- Writes never carry a reserved name: the loop `continue`s on them. -/
theorem lastWrite_reserved (images : Option ImagesTable)
    (entries : List WalkEntry) (ws : List (String × String)) (r : String)
    (hr : r ∈ reservedNames) (h : writesOf images entries = .ok ws) :
    lastWrite r ws = none := by
  induction entries generalizing ws with
  | nil =>
    injection h with h
    subst h
    rfl
  | cons e rest ih =>
    rw [writesOf] at h
    obtain ⟨w, hw, h⟩ := except_bind_ok h
    obtain ⟨ws2, hws2, h⟩ := except_bind_ok h
    have hlast := ih ws2 hws2
    cases w with
    | none =>
      injection h with h
      subst h
      exact hlast
    | some x =>
      injection h with h
      subst h
      rw [lastWrite, hlast]
      have hx : ¬ x.1 = r := by
        obtain ⟨hk, hnores⟩ := processEntry_ok_some hw
        intro hxr
        have hc : reservedNames.contains e.relPath = true :=
          List.contains_iff_exists_mem_beq.mpr ⟨e.relPath, by rw [← hk, hxr]; exact hr, by simp⟩
        rw [hnores] at hc
        exact Bool.noConfusion hc
      simp [hx]

end FileSet

namespace FileSet

/-- C8: the computed desired file set is the lesson walk's files overlaid
over the template walk's files at equal relative paths (lesson wins,
templates applied first), and no reserved name (`manifest.json`,
`video.cv`, `config.json`) ever appears among its keys. -/
theorem claim_C8_overlay (images : Option ImagesTable)
    (tEntries lEntries : List WalkEntry) (m : JsObj String)
    (h : desiredFileSet images (some tEntries) lEntries = .ok m) :
    (∀ r ∈ reservedNames, JsObj.get? m r = none)
    ∧ ∃ mt ml, buildFiles images tEntries = .ok mt
        ∧ buildFiles images lEntries = .ok ml
        ∧ ∀ p, JsObj.get? m p
            = (match JsObj.get? ml p with
               | some v => some v
               | none => JsObj.get? mt p) := by
  rw [desiredFileSet, buildFiles, buildFilesFrom_eq, writesOf_append] at h
  cases hwt : writesOf images tEntries with
  | error msg =>
    rw [hwt] at h
    exact absurd h (by simp [bind, Except.bind, Except.map])
  | ok wt =>
    cases hwl : writesOf images lEntries with
    | error msg =>
      rw [hwt, hwl] at h
      exact absurd h (by simp [bind, Except.bind, Except.map])
    | ok wl =>
      rw [hwt, hwl] at h
      simp only [bind, Except.bind, pure, Except.pure, Except.map] at h
      have hm : List.foldl (fun fs w => JsObj.set fs w.1 w.2) [] (wt ++ wl) = m :=
        Except.ok.inj h
      refine ⟨?_,
        List.foldl (fun fs w => JsObj.set fs w.1 w.2) [] wt,
        List.foldl (fun fs w => JsObj.set fs w.1 w.2) [] wl,
        by rw [buildFiles, buildFilesFrom_eq, hwt]; rfl,
        by rw [buildFiles, buildFilesFrom_eq, hwl]; rfl,
        ?_⟩
      · intro r hr
        rw [← hm, foldl_set_get?, lastWrite_append,
          lastWrite_reserved images lEntries wl r hr hwl,
          lastWrite_reserved images tEntries wt r hr hwt]
        rfl
      · intro p
        rw [← hm, foldl_set_get?, lastWrite_append, foldl_set_get?, foldl_set_get?]
        cases lastWrite p wl <;> cases lastWrite p wt <;> rfl

/-- C8 witness: template files a.txt→"1", b.txt→"2"; lesson files
b.txt→"3", c.txt→"4" plus a reserved manifest.json; the computed set is
exactly the overlay with the lesson winning at b.txt and the reserved
name excluded. -/
theorem claim_C8_overlay_witness :
    (∀ r ∈ reservedNames,
      JsObj.get? [("a.txt", "1"), ("b.txt", "3"), ("c.txt", "4")] r = none)
    ∧ ∃ mt ml,
        buildFiles none [⟨"/t/a.txt", true, "a.txt", "1"⟩,
                         ⟨"/t/b.txt", true, "b.txt", "2"⟩] = .ok mt
        ∧ buildFiles none [⟨"/l/b.txt", true, "b.txt", "3"⟩,
                           ⟨"/l/c.txt", true, "c.txt", "4"⟩,
                           ⟨"/l/manifest.json", true, "manifest.json", "x"⟩] = .ok ml
        ∧ ∀ p, JsObj.get? [("a.txt", "1"), ("b.txt", "3"), ("c.txt", "4")] p
            = (match JsObj.get? ml p with
               | some v => some v
               | none => JsObj.get? mt p) :=
  claim_C8_overlay none
    [⟨"/t/a.txt", true, "a.txt", "1"⟩, ⟨"/t/b.txt", true, "b.txt", "2"⟩]
    [⟨"/l/b.txt", true, "b.txt", "3"⟩, ⟨"/l/c.txt", true, "c.txt", "4"⟩,
     ⟨"/l/manifest.json", true, "manifest.json", "x"⟩]
    [("a.txt", "1"), ("b.txt", "3"), ("c.txt", "4")]
    (by rfl)

end FileSet
